import Mathlib

/-!
Verification of the stream splitter in `src/split.py` (repository
`nouturnsign/up-and-down`): a single-pass, catalog-driven segmenter that
splits a concatenated anthology into one output file per retained work.

The Python code is shallowly embedded: each Python string helper is
modelled on its ASCII fragment (`str.strip`, `str.upper`, `str.isupper`,
the two regular expressions), the Python `for line in f` loop becomes a
fold of a `step` function over the list of input lines, and file-system
side effects (opening, writing and closing output sinks) are recorded
explicitly in the state.
-/

namespace UpAndDown

/-- ASCII whitespace, as recognised by Python's `str.strip` and by `\s`
in the regular expressions of `split.py` (space, tab, newline, carriage
return, vertical tab, form feed). -/
def pySpace (c : Char) : Bool :=
  c = ' ' || c = '\t' || c = '\n' || c = '\r' || c = '\x0b' || c = '\x0c'

/-- Drop leading and trailing whitespace from a character list. -/
def stripChars (cs : List Char) : List Char :=
  ((cs.dropWhile pySpace).reverse.dropWhile pySpace).reverse

/-- Model of Python `str.strip()` (ASCII fragment). -/
def pyStrip (s : String) : String := ⟨stripChars s.data⟩

/-- Model of Python `str.upper()` (ASCII fragment): `Char.toUpper` maps
`a`–`z` to `A`–`Z` and fixes every other character. -/
def pyUpper (s : String) : String := ⟨s.data.map Char.toUpper⟩

/-- `A`–`Z`, the character class `[A-Z]`. -/
def latinUpper (c : Char) : Bool := 65 ≤ c.toNat && c.toNat ≤ 90

/-- `a`–`z`. -/
def latinLower (c : Char) : Bool := 97 ≤ c.toNat && c.toNat ≤ 122

/-- An ASCII letter — the cased characters of the ASCII fragment. -/
def latinLetter (c : Char) : Bool := latinUpper c || latinLower c

/-- Model of Python `str.isupper()` (ASCII fragment): at least one cased
character, and no cased character is lowercase. -/
def pyIsUpper (s : String) : Bool :=
  s.data.any latinLetter && !(s.data.any latinLower)

/-- Character-level model of `re.sub(r"[^A-Z]", "", ·)`: delete every
character outside `A`–`Z`, keeping the rest in order. -/
def subNonAZ : List Char → List Char
  | [] => []
  | c :: cs => if latinUpper c then c :: subNonAZ cs else subNonAZ cs

/-- The title normalizer of `split.py`:
`re.sub(r"[^A-Z]", "", line.upper())`. -/
def normalize (s : String) : String := ⟨subNonAZ (s.data.map Char.toUpper)⟩

/-- Match a literal character sequence at the front of `cs`, returning
the remainder on success. -/
def eatLit : List Char → List Char → Option (List Char)
  | [], cs => some cs
  | _ :: _, [] => none
  | l :: ls, c :: cs => if c = l then eatLit ls cs else none

/-- Match `\s+` at the front of `cs` (one or more whitespace characters,
maximal munch), returning the remainder on success. -/
def eatSpaces1 (cs : List Char) : Option (List Char) :=
  match cs with
  | [] => none
  | c :: rest => if pySpace c then some (rest.dropWhile pySpace) else none

/-- Match `[\.\s]*$`: every remaining character is a period or
whitespace. -/
def dotSpaceTail (cs : List Char) : Bool :=
  cs.all fun c => c = '.' || pySpace c

/-- Match a one-word alternative (`PROLOGUE` or `INDUCTION`) followed by
`[\.\s]*$`. -/
def litThenTail (lit u : List Char) : Bool :=
  match eatLit lit u with
  | some r => dotSpaceTail r
  | none => false

/-- Match `\s+I` followed by `[\.\s]*$`. -/
def spacesThenI (r1 : List Char) : Bool :=
  match eatSpaces1 r1 with
  | some r2 =>
    (match eatLit ['I'] r2 with
     | some r3 => dotSpaceTail r3
     | none => false)
  | none => false

/-- Match a two-word alternative (`ACT\s+I` or `SCENE\s+I`) followed by
`[\.\s]*$`. -/
def litSpacesI (lit u : List Char) : Bool :=
  match eatLit lit u with
  | some r1 => spacesThenI r1
  | none => false

/-- Model of the compiled marker regex of `flush_preamble`:
`re.compile(r"^(ACT\s+I|PROLOGUE|SCENE\s+I|INDUCTION)[\.\s]*$", re.IGNORECASE)`,
applied with `.match` (so the whole string must be consumed, thanks to the
trailing `$`).  Case-insensitivity is modelled by uppercasing the input
and matching against the uppercase literals; the four alternatives begin
with distinct letters, so ordered alternation coincides with disjunction,
and `\s+` followed by the non-whitespace `I` makes maximal munch exact. -/
def startPatternMatch (s : String) : Bool :=
  let u := (pyUpper s).data
  litSpacesI "ACT".data u || litThenTail "PROLOGUE".data u ||
    litSpacesI "SCENE".data u || litThenTail "INDUCTION".data u

/-- A buffered line counts as a start-of-content marker when the regex
matches its stripped form: `start_pattern.match(preamble_buffer[i].strip())`. -/
def markerLine (line : String) : Bool := startPatternMatch (pyStrip line)

/-- The backward scan of `flush_preamble`:
`for i in range(len(preamble_buffer) - 1, -1, -1)`, returning the first
index whose line matches the marker regex.  If no index matches the loop
falls through and `start_idx` keeps its initial value `0` (so reaching
index `0` returns `0` whether or not it matches). -/
def scanBack (pb : List String) : Nat → Nat
  | 0 => 0
  | j + 1 => if markerLine (pb.getD (j + 1) "") then j + 1 else scanBack pb j

/-- The `start_idx` computed by `flush_preamble` (`0` for an empty window,
where the Python loop body never runs). -/
def flushStartIdx (pb : List String) : Nat :=
  match pb.length with
  | 0 => 0
  | n + 1 => scanBack pb n

/-- Model of `flush_preamble(buffer, preamble_buffer)`: extend the body
buffer with `preamble_buffer[start_idx:]` and clear the window.  The
returned pair is (new body buffer, new preamble window). -/
def flush_preamble (buffer pb : List String) : List String × List String :=
  (buffer ++ pb.drop (flushStartIdx pb), [])

/-- One entry of `EXPECTED_WORKS_SEQUENCE`:
(normalized title, is-play flag, output filename stem). -/
structure CatalogEntry where
  normalized_title : String
  is_play : Bool
  safe_title : String
deriving DecidableEq

/-- Fallback entry for out-of-range catalog reads (never reached: every
access is guarded by `current_work_idx < length`). -/
def defaultEntry : CatalogEntry := ⟨"", false, ""⟩

/-- The 44-entry catalog literal of `split.py`, in source order. -/
def EXPECTED_WORKS_SEQUENCE : List CatalogEntry := [
  ⟨"THESONNETS", false, "the_sonnets"⟩,
  ⟨"ALLSWELLTHATENDSWELL", true, "alls_well_that_ends_well"⟩,
  ⟨"THETRAGEDYOFANTONYANDCLEOPATRA", true, "antony_and_cleopatra"⟩,
  ⟨"ASYOULIKEIT", true, "as_you_like_it"⟩,
  ⟨"THECOMEDYOFERRORS", true, "the_comedy_of_errors"⟩,
  ⟨"THETRAGEDYOFCORIOLANUS", true, "coriolanus"⟩,
  ⟨"CYMBELINE", true, "cymbeline"⟩,
  ⟨"THETRAGEDYOFHAMLETPRINCEOFDENMARK", true, "hamlet"⟩,
  ⟨"THEFIRSTPARTOFKINGHENRYTHEFOURTH", true, "king_henry_iv_part_1"⟩,
  ⟨"THESECONDPARTOFKINGHENRYTHEFOURTH", true, "king_henry_iv_part_2"⟩,
  ⟨"THELIFEOFKINGHENRYTHEFIFTH", true, "king_henry_v"⟩,
  ⟨"THEFIRSTPARTOFHENRYTHESIXTH", true, "king_henry_vi_part_1"⟩,
  ⟨"THESECONDPARTOFKINGHENRYTHESIXTH", true, "king_henry_vi_part_2"⟩,
  ⟨"THETHIRDPARTOFKINGHENRYTHESIXTH", true, "king_henry_vi_part_3"⟩,
  ⟨"KINGHENRYTHEEIGHTH", true, "king_henry_viii"⟩,
  ⟨"THELIFEANDDEATHOFKINGJOHN", true, "king_john"⟩,
  ⟨"THETRAGEDYOFJULIUSCAESAR", true, "julius_caesar"⟩,
  ⟨"THETRAGEDYOFKINGLEAR", true, "king_lear"⟩,
  ⟨"LOVESLABOURSLOST", true, "loves_labours_lost"⟩,
  ⟨"THETRAGEDYOFMACBETH", true, "macbeth"⟩,
  ⟨"MEASUREFORMEASURE", true, "measure_for_measure"⟩,
  ⟨"THEMERCHANTOFVENICE", true, "the_merchant_of_venice"⟩,
  ⟨"THEMERRYWIVESOFWINDSOR", true, "the_merry_wives_of_windsor"⟩,
  ⟨"AMIDSUMMERNIGHTSDREAM", true, "a_midsummer_nights_dream"⟩,
  ⟨"MUCHADOABOUTNOTHING", true, "much_ado_about_nothing"⟩,
  ⟨"THETRAGEDYOFOTHELLOTHEMOOROFVENICE", true, "othello"⟩,
  ⟨"PERICLESPRINCEOFTYRE", true, "pericles"⟩,
  ⟨"KINGRICHARDTHESECOND", true, "king_richard_ii"⟩,
  ⟨"KINGRICHARDTHETHIRD", true, "king_richard_iii"⟩,
  ⟨"THETRAGEDYOFROMEOANDJULIET", true, "romeo_and_juliet"⟩,
  ⟨"THETAMINGOFTHESHREW", true, "the_taming_of_the_shrew"⟩,
  ⟨"THETEMPEST", true, "the_tempest"⟩,
  ⟨"THELIFEOFTIMONOFATHENS", true, "timon_of_athens"⟩,
  ⟨"THETRAGEDYOFTITUSANDRONICUS", true, "titus_andronicus"⟩,
  ⟨"TROILUSANDCRESSIDA", true, "troilus_and_cressida"⟩,
  ⟨"TWELFTHNIGHTORWHATYOUWILL", true, "twelfth_night"⟩,
  ⟨"THETWOGENTLEMENOFVERONA", true, "the_two_gentlemen_of_verona"⟩,
  ⟨"THETWONOBLEKINSMEN", true, "the_two_noble_kinsmen"⟩,
  ⟨"THEWINTERSTALE", true, "the_winters_tale"⟩,
  ⟨"ALOVERSCOMPLAINT", false, "a_lovers_complaint"⟩,
  ⟨"THEPASSIONATEPILGRIM", false, "the_passionate_pilgrim"⟩,
  ⟨"THEPHOENIXANDTHETURTLE", false, "the_phoenix_and_the_turtle"⟩,
  ⟨"THERAPEOFLUCRECE", false, "the_rape_of_lucrece"⟩,
  ⟨"VENUSANDADONIS", false, "venus_and_adonis"⟩]

/-- Does a character list start with the given literal sequence? -/
def startsWithSeq : List Char → List Char → Bool
  | [], _ => true
  | _ :: _, [] => false
  | a :: as, b :: bs => if b = a then startsWithSeq as bs else false

/-- Substring containment, modelling Python's `needle in haystack`. -/
def containsSeq (needle : List Char) : List Char → Bool
  | [] => needle.isEmpty
  | c :: t => startsWithSeq needle (c :: t) || containsSeq needle t

/-- Model of Python `"Contents" in clean_line` (case-sensitive substring). -/
def pyContains (needle hay : String) : Bool := containsSeq needle.data hay.data

/-- The three parser states of `split_complete_works`. -/
inductive Mode
  | waitForTOC
  | skipTOC
  | extractWorks
deriving DecidableEq

/-- An open (or finalized) output sink: its filename and the lines
written to it so far, in write order. -/
structure ActiveFile where
  name : String
  written : List String
deriving DecidableEq

/-- The mutable state of `split_complete_works`, with the file-system
side effects made explicit: `current` is the open sink (`current_file`
plus its name and the content written to it), `saved` records finalized
sinks in the order they were closed, and `opened` records the catalog
index of every sink that was ever opened, in order of opening. -/
structure SplitState where
  mode : Mode
  current_work_idx : Nat
  current : Option ActiveFile
  saved : List ActiveFile
  saved_count : Nat
  buffer : List String
  in_preamble : Bool
  preamble_buffer : List String
  opened : List Nat
deriving DecidableEq

/-- The state at the top of `split_complete_works`, before any line is
read. -/
def initState : SplitState :=
  ⟨.waitForTOC, 0, none, [], 0, [], false, [], []⟩

/-- The boundary test of the `EXTRACT_WORKS` state, on the stripped
line: `current_work_idx < len(...) and clean_line.isupper()` and the
normalized line equals the expected normalized title. -/
def boundaryHit (s : SplitState) (clean : String) : Bool :=
  if s.current_work_idx < EXPECTED_WORKS_SEQUENCE.length then
    if pyIsUpper clean then
      if normalize clean =
          (EXPECTED_WORKS_SEQUENCE.getD s.current_work_idx defaultEntry).normalized_title
      then true else false
    else false
  else false

/-- "1. Close the previous file gracefully": if a sink is open, resolve
a pending preamble, write out the remaining body buffer, close the sink
and count it as saved.  A no-op when no sink is open (the Python block is
guarded by `if current_file:`). -/
def closeCurrent (s : SplitState) : SplitState :=
  match s.current with
  | none => s
  | some f =>
    let bp := if s.in_preamble then flush_preamble s.buffer s.preamble_buffer
              else (s.buffer, s.preamble_buffer)
    { s with
      current := none,
      saved := s.saved ++ [{ f with written := f.written ++ bp.1 }],
      saved_count := s.saved_count + 1,
      buffer := [],
      in_preamble := false,
      preamble_buffer := bp.2 }

/-- The boundary branch of `EXTRACT_WORKS`: close the previous sink,
advance the cursor, and either open a sink for the new work (writing the
raw boundary line first and starting a fresh preamble window) or, for a
non-play, drop output until the next boundary. -/
def boundaryStep (s : SplitState) (line : String) : SplitState :=
  let e := EXPECTED_WORKS_SEQUENCE.getD s.current_work_idx defaultEntry
  let s1 := closeCurrent s
  let s2 := { s1 with current_work_idx := s1.current_work_idx + 1 }
  if e.is_play then
    { s2 with
      current := some ⟨e.safe_title ++ ".txt", [line]⟩,
      in_preamble := true,
      preamble_buffer := [],
      opened := s2.opened ++ [s.current_work_idx] }
  else
    { s2 with current := none, in_preamble := false }

/-- The "General Line Writing" branch of `EXTRACT_WORKS`: append the raw
line to the preamble window (resolving it once it reaches 1000 lines) or
to the body buffer (flushing to the sink once it reaches `BUFFER_LIMIT`);
with no open sink the line is dropped. -/
def generalWrite (s : SplitState) (line : String) : SplitState :=
  match s.current with
  | none => s
  | some f =>
    if s.in_preamble then
      let pb := s.preamble_buffer ++ [line]
      if 1000 ≤ pb.length then
        let bp := flush_preamble s.buffer pb
        { s with buffer := bp.1, preamble_buffer := bp.2, in_preamble := false }
      else
        { s with preamble_buffer := pb }
    else
      let buf := s.buffer ++ [line]
      if 1000 ≤ buf.length then
        { s with current := some { f with written := f.written ++ buf }, buffer := [] }
      else
        { s with buffer := buf }

/-- One iteration of `for line in f`. -/
def step (s : SplitState) (line : String) : SplitState :=
  let clean := pyStrip line
  match s.mode with
  | .waitForTOC =>
    if pyContains "Contents" clean then { s with mode := .skipTOC } else s
  | .skipTOC =>
    if normalize clean = "VENUSANDADONIS" then { s with mode := .extractWorks } else s
  | .extractWorks =>
    if boundaryHit s clean then boundaryStep s line else generalWrite s line

/-- The whole reading loop, started from the initial state. -/
def processLines (lines : List String) : SplitState :=
  lines.foldl step initState

/-- The "Final cleanup" block after the loop: finalize a still-open sink
(resolve pending preamble, write the remaining buffer, close). -/
def finalizeEOF (s : SplitState) : SplitState :=
  match s.current with
  | none => s
  | some f =>
    let bp := if s.in_preamble then flush_preamble s.buffer s.preamble_buffer
              else (s.buffer, s.preamble_buffer)
    { s with
      current := none,
      saved := s.saved ++ [{ f with written := f.written ++ bp.1 }],
      saved_count := s.saved_count + 1,
      buffer := bp.1,
      preamble_buffer := bp.2 }

/-- Run of `split_complete_works` on an available input: process every
line, then finalize. -/
def runSplit (lines : List String) : SplitState :=
  finalizeEOF (processLines lines)

/-- How the input source presents itself to `split_complete_works`:
the path may not exist (`os.path.exists` is false), the file may exist
but fail to open or read (`open`/iteration raises `OSError`), or it is
readable as a list of lines. -/
inductive InputSource
  | missing
  | openFailure
  | readable (lines : List String)

/-- An I/O exception escaping `split_complete_works`. -/
inductive IOFailure
  | ioError
deriving DecidableEq

/-- The externally observable outcome of one call: the finalized output
files and whether the `ERROR: Cannot find ...` message was printed. -/
structure RunResult where
  files : List ActiveFile
  error_printed : Bool
deriving DecidableEq

/-- Top-level model of `split_complete_works`.  A missing path prints
the error message and returns normally (plain `return`, no exception);
a failing `open`/read propagates the exception to the caller; otherwise
the streaming pass runs to completion. -/
def split_complete_works : InputSource → Except IOFailure RunResult
  | .missing => .ok ⟨[], true⟩
  | .openFailure => .error .ioError
  | .readable lines => .ok ⟨(runSplit lines).saved, false⟩

/-- `[\.\s]*`: every character of the tail is a period or whitespace. -/
def PunctTailOk (t : List Char) : Prop := ∀ c ∈ t, c = '.' ∨ pySpace c = true

/-- `\s+`: a nonempty run of whitespace characters. -/
def SpaceRun (ws : List Char) : Prop := ws ≠ [] ∧ ∀ c ∈ ws, pySpace c = true

/-- The shape of lines accepted by the marker regex, stated structurally:
after uppercasing, the whole string is one of the four phrases — with one
or more whitespace characters between the two words of the two-word
phrases — followed only by periods and whitespace. -/
def MarkerShape (s : String) : Prop :=
  (∃ ws t, (pyUpper s).data = "ACT".data ++ ws ++ 'I' :: t ∧ SpaceRun ws ∧ PunctTailOk t)
  ∨ (∃ t, (pyUpper s).data = "PROLOGUE".data ++ t ∧ PunctTailOk t)
  ∨ (∃ ws t, (pyUpper s).data = "SCENE".data ++ ws ++ 'I' :: t ∧ SpaceRun ws ∧ PunctTailOk t)
  ∨ (∃ t, (pyUpper s).data = "INDUCTION".data ++ t ∧ PunctTailOk t)

/-- The marker rule exactly as claim C4 words it: after trimming
whitespace, the line consists solely of one of `ACT I`, `PROLOGUE`,
`SCENE I`, `INDUCTION` (case-insensitively), optionally followed by
trailing punctuation — with punctuation in its ordinary sense, here the
common ASCII punctuation marks. -/
def asciiPunct (c : Char) : Bool :=
  c ∈ ['.', ',', ';', ':', '!', '?', '-', '(', ')', '"']

/-- Decision procedure for claim C4's wording of the marker rule. -/
def startPatternSpecClaim (s : String) : Bool :=
  ["ACT I", "PROLOGUE", "SCENE I", "INDUCTION"].any fun m =>
    startsWithSeq m.data (pyUpper (pyStrip s)).data
      && ((pyUpper (pyStrip s)).data.drop m.data.length).all asciiPunct

/-- Invariant maintained by every iteration of the reading loop: the two
buffers stay bounded, the body buffer is empty while the preamble window
is live, no buffering happens without an open sink, the cursor stays
within the catalog, and sinks were opened at strictly increasing catalog
positions, all of them plays. -/
def Inv (s : SplitState) : Prop :=
  s.preamble_buffer.length ≤ 999
  ∧ s.buffer.length ≤ 1000
  ∧ (s.in_preamble = true → s.buffer = [] ∧ s.current ≠ none)
  ∧ (s.current = none → s.buffer = [] ∧ s.in_preamble = false)
  ∧ (s.in_preamble = false → s.preamble_buffer = [])
  ∧ s.current_work_idx ≤ EXPECTED_WORKS_SEQUENCE.length
  ∧ s.opened.Pairwise (· < ·)
  ∧ (∀ i ∈ s.opened, i < s.current_work_idx)
  ∧ (∀ i ∈ s.opened, (EXPECTED_WORKS_SEQUENCE.getD i defaultEntry).is_play = true)

/-- A mid-extraction state with no open sink, cursor at the start of the
catalog (the state reached right after the table of contents ends). -/
def extractState0 : SplitState :=
  ⟨.extractWorks, 0, none, [], 0, [], false, [], []⟩

/-- A mid-extraction state with no open sink, cursor at catalog position
1 (a retained play). -/
def extractState1 : SplitState :=
  ⟨.extractWorks, 1, none, [], 0, [], false, [], []⟩

/-- A state whose preamble window holds 999 lines, one short of the
bound, with the catalog exhausted so no line can be a boundary. -/
def preambleFullState : SplitState :=
  ⟨.extractWorks, 44, some ⟨"f.txt", ["T"]⟩, [], 0, [], true, List.replicate 999 "x", []⟩

/-- A state whose body buffer holds 999 lines, one short of the flush
threshold, with the catalog exhausted so no line can be a boundary. -/
def bodyFullState : SplitState :=
  ⟨.extractWorks, 44, some ⟨"f.txt", ["T"]⟩, [], 0, List.replicate 999 "b", false, [], []⟩

/-! ### Properties of the backward preamble scan -/

lemma scanBack_le (pb : List String) : ∀ j, scanBack pb j ≤ j
  | 0 => Nat.le_refl 0
  | j + 1 => by
    unfold scanBack
    split
    · exact Nat.le_refl _
    · exact Nat.le_trans (scanBack_le pb j) (Nat.le_succ j)

lemma scanBack_zero_or_marker (pb : List String) :
    ∀ j, scanBack pb j = 0 ∨ markerLine (pb.getD (scanBack pb j) "") = true
  | 0 => Or.inl rfl
  | j + 1 => by
    unfold scanBack
    split
    · next h => exact Or.inr h
    · exact scanBack_zero_or_marker pb j

lemma scanBack_no_marker_above (pb : List String) :
    ∀ j k, scanBack pb j < k → k ≤ j → markerLine (pb.getD k "") = false
  | 0, k, hlt, hle => absurd (Nat.lt_of_lt_of_le hlt hle) (Nat.lt_irrefl _)
  | j + 1, k, hlt, hle => by
    revert hlt
    unfold scanBack
    split
    · intro hlt
      exact absurd (Nat.lt_of_lt_of_le hlt hle) (Nat.lt_irrefl _)
    · next h =>
      intro hlt
      rcases Nat.lt_or_ge k (j + 1) with hk | hk
      · exact scanBack_no_marker_above pb j k hlt (Nat.lt_succ_iff.mp hk)
      · have : k = j + 1 := Nat.le_antisymm hle hk
        subst this
        exact Bool.not_eq_true _ ▸ Bool.of_not_eq_true h

lemma scanBack_finds (pb : List String) (j i : Nat) (hij : i ≤ j)
    (hm : markerLine (pb.getD i "") = true) :
    markerLine (pb.getD (scanBack pb j) "") = true := by
  rcases scanBack_zero_or_marker pb j with h0 | hmk
  · rcases Nat.eq_zero_or_pos i with hi | hi
    · subst hi; rwa [h0]
    · have := scanBack_no_marker_above pb j i (h0 ▸ hi) hij
      rw [hm] at this
      exact absurd this (by simp)
  · exact hmk

lemma flushStartIdx_no_marker_above (pb : List String) (k : Nat)
    (h1 : flushStartIdx pb < k) (h2 : k < pb.length) :
    markerLine (pb.getD k "") = false := by
  unfold flushStartIdx at h1
  rcases hl : pb.length with _ | n
  · omega
  · rw [hl] at h1
    exact scanBack_no_marker_above pb n k h1 (by omega)

lemma flushStartIdx_finds (pb : List String) (i : Nat) (h1 : i < pb.length)
    (hm : markerLine (pb.getD i "") = true) :
    markerLine (pb.getD (flushStartIdx pb) "") = true := by
  unfold flushStartIdx
  rcases hl : pb.length with _ | n
  · omega
  · exact scanBack_finds pb n i (by omega) hm

lemma flushStartIdx_of_no_marker (pb : List String)
    (h : ∀ i, i < pb.length → markerLine (pb.getD i "") = false) :
    flushStartIdx pb = 0 := by
  unfold flushStartIdx
  rcases hl : pb.length with _ | n
  · rfl
  · rcases scanBack_zero_or_marker pb n with h0 | hmk
    · exact h0
    · have hle := scanBack_le pb n
      have := h (scanBack pb n) (by omega)
      rw [this] at hmk
      exact absurd hmk (by simp)

/-! ### Structural characterization of the marker regex -/

lemma eatLit_eq_some : ∀ (lit cs r : List Char), eatLit lit cs = some r ↔ cs = lit ++ r
  | [], cs, r => by simp [eatLit, eq_comm]
  | l :: ls, [], r => by simp [eatLit]
  | l :: ls, c :: cs, r => by
    simp only [eatLit, List.cons_append, List.cons.injEq]
    by_cases h : c = l
    · rw [if_pos h, eatLit_eq_some ls cs r]
      simp [h]
    · rw [if_neg h]
      simp [h]

lemma dotSpaceTail_iff (t : List Char) : dotSpaceTail t = true ↔ PunctTailOk t := by
  simp only [dotSpaceTail, List.all_eq_true, Bool.or_eq_true, decide_eq_true_eq, PunctTailOk]

lemma dropWhile_spaces (t : List Char) :
    ∀ ws, (∀ c ∈ ws, pySpace c = true) → (ws ++ 'I' :: t).dropWhile pySpace = 'I' :: t
  | [], _ => by simp [List.dropWhile_cons, pySpace]
  | w :: ws, h => by
    rw [List.cons_append, List.dropWhile_cons, h w (by simp)]
    exact dropWhile_spaces t ws (fun c hc => h c (by simp [hc]))

lemma litThenTail_iff (lit u : List Char) :
    litThenTail lit u = true ↔ ∃ t, u = lit ++ t ∧ PunctTailOk t := by
  unfold litThenTail
  rcases h : eatLit lit u with _ | r
  · simp only [Bool.false_eq_true, false_iff]
    rintro ⟨t, ht, -⟩
    rw [← eatLit_eq_some lit u t] at ht
    rw [h] at ht; exact Option.noConfusion ht
  · rw [eatLit_eq_some] at h
    subst h
    constructor
    · intro hd; exact ⟨r, rfl, (dotSpaceTail_iff r).mp hd⟩
    · rintro ⟨t, ht, hp⟩
      have : r = t := by simpa using ht
      subst this
      exact (dotSpaceTail_iff r).mpr hp

lemma spacesThenI_iff (r1 : List Char) :
    spacesThenI r1 = true ↔
      ∃ ws t, r1 = ws ++ 'I' :: t ∧ SpaceRun ws ∧ PunctTailOk t := by
  constructor
  · -- greedy parse succeeds ⇒ structural decomposition
    unfold spacesThenI
    rcases r1 with _ | ⟨c, rest⟩
    · simp [eatSpaces1]
    · simp only [eatSpaces1]
      by_cases hc : pySpace c = true
      · rw [if_pos hc]
        rcases hd : rest.dropWhile pySpace with _ | ⟨i, r3⟩
        · simp [eatLit]
        · simp only [eatLit]
          by_cases hi : i = 'I'
          · subst hi
            rw [if_pos rfl]
            intro hdt
            refine ⟨c :: rest.takeWhile pySpace, r3, ?_, ?_, (dotSpaceTail_iff r3).mp hdt⟩
            · rw [List.cons_append]
              congr 1
              rw [← hd]
              exact (List.takeWhile_append_dropWhile (p := pySpace) (l := rest)).symm
            · refine ⟨by simp, ?_⟩
              intro x hx
              rcases List.mem_cons.mp hx with hx | hx
              · subst hx; exact hc
              · exact List.mem_takeWhile_imp hx
          · rw [if_neg (fun hh => hi hh)]
            simp
      · rw [if_neg hc]
        simp
  · -- structural decomposition ⇒ greedy parse succeeds
    rintro ⟨ws, t, ht, ⟨hne, hsp⟩, hp⟩
    rcases ws with _ | ⟨w, ws'⟩
    · exact absurd rfl hne
    · subst ht
      have hw : pySpace w = true := hsp w (by simp)
      unfold spacesThenI
      simp only [List.cons_append, eatSpaces1, if_pos hw]
      rw [dropWhile_spaces t ws' (fun c hc => hsp c (by simp [hc]))]
      simp only [eatLit, if_pos rfl]
      exact (dotSpaceTail_iff t).mpr hp

lemma litSpacesI_iff (lit u : List Char) :
    litSpacesI lit u = true ↔
      ∃ ws t, u = lit ++ ws ++ 'I' :: t ∧ SpaceRun ws ∧ PunctTailOk t := by
  unfold litSpacesI
  rcases h : eatLit lit u with _ | r1
  · simp only [Bool.false_eq_true, false_iff]
    rintro ⟨ws, t, ht, -, -⟩
    have h2 : eatLit lit u = some (ws ++ 'I' :: t) :=
      (eatLit_eq_some lit u _).mpr (by rw [ht, List.append_assoc])
    rw [h] at h2; exact Option.noConfusion h2
  · rw [eatLit_eq_some] at h
    subst h
    rw [spacesThenI_iff]
    constructor
    · rintro ⟨ws, t, ht, hs, hpt⟩
      exact ⟨ws, t, by rw [ht, List.append_assoc], hs, hpt⟩
    · rintro ⟨ws, t, ht, hs, hpt⟩
      rw [List.append_assoc] at ht
      exact ⟨ws, t, List.append_cancel_left ht, hs, hpt⟩

lemma startPatternMatch_iff (s : String) :
    startPatternMatch s = true ↔ MarkerShape s := by
  unfold startPatternMatch MarkerShape
  simp only [Bool.or_eq_true, litSpacesI_iff, litThenTail_iff, or_assoc]

/-! ### Properties of the title normalizer -/

lemma subNonAZ_eq_filter : ∀ cs : List Char, subNonAZ cs = cs.filter latinUpper
  | [] => rfl
  | c :: cs => by
    rw [subNonAZ, List.filter_cons]
    by_cases h : latinUpper c = true
    · rw [if_pos h, if_pos h, subNonAZ_eq_filter cs]
    · rw [if_neg h, if_neg (by simpa using h), subNonAZ_eq_filter cs]

/-! ### The loop invariant of the stream segmenter -/

lemma inv_init : Inv initState := by
  refine ⟨by simp [initState], by simp [initState], ?_, ?_, ?_, ?_, ?_, ?_, ?_⟩ <;>
    simp [initState]

lemma boundaryHit_eq_true (s : SplitState) (clean : String) :
    boundaryHit s clean = true ↔
      s.current_work_idx < EXPECTED_WORKS_SEQUENCE.length
      ∧ pyIsUpper clean = true
      ∧ normalize clean =
          (EXPECTED_WORKS_SEQUENCE.getD s.current_work_idx defaultEntry).normalized_title := by
  unfold boundaryHit
  split
  · split
    · split
      · simp_all
      · simp_all
    · simp_all
  · simp_all

lemma closeCurrent_fields (s : SplitState) (h : Inv s) :
    (closeCurrent s).buffer = []
    ∧ (closeCurrent s).preamble_buffer = []
    ∧ (closeCurrent s).current = none
    ∧ (closeCurrent s).in_preamble = false
    ∧ (closeCurrent s).current_work_idx = s.current_work_idx
    ∧ (closeCurrent s).opened = s.opened
    ∧ (closeCurrent s).mode = s.mode := by
  obtain ⟨-, -, -, h4, h5, -, -, -, -⟩ := h
  unfold closeCurrent
  rcases hc : s.current with _ | f
  · obtain ⟨hb, hp⟩ := h4 hc
    exact ⟨hb, h5 hp, hc, hp, rfl, rfl, rfl⟩
  · rcases hp : s.in_preamble with _ | _
    · simp [hp, h5 hp]
    · simp [hp, flush_preamble]

lemma boundaryStep_play (s : SplitState) (line : String)
    (hplay : (EXPECTED_WORKS_SEQUENCE.getD s.current_work_idx defaultEntry).is_play = true) :
    boundaryStep s line =
      { closeCurrent s with
        current_work_idx := (closeCurrent s).current_work_idx + 1,
        current := some
          ⟨(EXPECTED_WORKS_SEQUENCE.getD s.current_work_idx defaultEntry).safe_title ++ ".txt",
            [line]⟩,
        in_preamble := true,
        preamble_buffer := [],
        opened := (closeCurrent s).opened ++ [s.current_work_idx] } := by
  unfold boundaryStep
  rw [if_pos hplay]

lemma boundaryStep_nonplay (s : SplitState) (line : String)
    (hplay : (EXPECTED_WORKS_SEQUENCE.getD s.current_work_idx defaultEntry).is_play = false) :
    boundaryStep s line =
      { closeCurrent s with
        current_work_idx := (closeCurrent s).current_work_idx + 1,
        current := none,
        in_preamble := false } := by
  unfold boundaryStep
  rw [if_neg (by intro hh; rw [hplay] at hh; exact Bool.noConfusion hh)]

lemma inv_boundaryStep (s : SplitState) (line : String) (h : Inv s)
    (hidx : s.current_work_idx < EXPECTED_WORKS_SEQUENCE.length) :
    Inv (boundaryStep s line) := by
  obtain ⟨h1, h2, h3, h4, h5, h6, h7, h8, h9⟩ := h
  obtain ⟨cb, cp, cc, ci, cw, co, cm⟩ :=
    closeCurrent_fields s ⟨h1, h2, h3, h4, h5, h6, h7, h8, h9⟩
  by_cases hplay :
      (EXPECTED_WORKS_SEQUENCE.getD s.current_work_idx defaultEntry).is_play = true
  · rw [boundaryStep_play s line hplay]
    refine ⟨by simp, by simp [cb], by simp [cb], by simp, by simp, ?_, ?_, ?_, ?_⟩
    · simp only [cw]; omega
    · simp only [co, List.pairwise_append]
      exact ⟨h7, List.pairwise_singleton _ _, fun a ha b hb => by
        simp only [List.mem_singleton] at hb
        subst hb
        exact h8 a ha⟩
    · simp only [co, cw]
      intro i hi
      rcases List.mem_append.mp hi with hi | hi
      · exact Nat.lt_succ_of_lt (h8 i hi)
      · simp only [List.mem_singleton] at hi
        subst hi
        exact Nat.lt_succ_self _
    · simp only [co]
      intro i hi
      rcases List.mem_append.mp hi with hi | hi
      · exact h9 i hi
      · simp only [List.mem_singleton] at hi
        subst hi
        exact hplay
  · rw [boundaryStep_nonplay s line (by simpa using hplay)]
    refine ⟨by simp [cp], by simp [cb], by simp, by simp [cb], by simp [cp], ?_, ?_, ?_, ?_⟩
    · simp only [cw]; omega
    · simpa only [co] using h7
    · simp only [co, cw]
      exact fun i hi => Nat.lt_succ_of_lt (h8 i hi)
    · simpa only [co] using h9

lemma generalWrite_none (s : SplitState) (line : String) (hc : s.current = none) :
    generalWrite s line = s := by
  simp only [generalWrite, hc]

lemma generalWrite_pre_full (s : SplitState) (line : String) (f : ActiveFile)
    (hc : s.current = some f) (hp : s.in_preamble = true)
    (hlen : 1000 ≤ (s.preamble_buffer ++ [line]).length) :
    generalWrite s line =
      { s with
        buffer := s.buffer ++
          (s.preamble_buffer ++ [line]).drop (flushStartIdx (s.preamble_buffer ++ [line])),
        preamble_buffer := [],
        in_preamble := false } := by
  simp only [generalWrite, hc, hp, if_true, flush_preamble]
  rw [if_pos hlen]

lemma generalWrite_pre_keep (s : SplitState) (line : String) (f : ActiveFile)
    (hc : s.current = some f) (hp : s.in_preamble = true)
    (hlen : ¬ 1000 ≤ (s.preamble_buffer ++ [line]).length) :
    generalWrite s line = { s with preamble_buffer := s.preamble_buffer ++ [line] } := by
  simp only [generalWrite, hc, hp, if_true]
  rw [if_neg hlen]

lemma generalWrite_body_flush (s : SplitState) (line : String) (f : ActiveFile)
    (hc : s.current = some f) (hp : s.in_preamble = false)
    (hlen : 1000 ≤ (s.buffer ++ [line]).length) :
    generalWrite s line =
      { s with
        current := some { f with written := f.written ++ (s.buffer ++ [line]) },
        buffer := [] } := by
  simp only [generalWrite, hc, hp, Bool.false_eq_true, if_false]
  rw [if_pos hlen]

lemma generalWrite_body_keep (s : SplitState) (line : String) (f : ActiveFile)
    (hc : s.current = some f) (hp : s.in_preamble = false)
    (hlen : ¬ 1000 ≤ (s.buffer ++ [line]).length) :
    generalWrite s line = { s with buffer := s.buffer ++ [line] } := by
  simp only [generalWrite, hc, hp, Bool.false_eq_true, if_false]
  rw [if_neg hlen]

lemma inv_generalWrite (s : SplitState) (line : String) (h : Inv s) :
    Inv (generalWrite s line) := by
  rcases hc : s.current with _ | f
  · rwa [generalWrite_none s line hc]
  obtain ⟨h1, h2, h3, h4, h5, h6, h7, h8, h9⟩ := h
  rcases hp : s.in_preamble with _ | _
  · by_cases hlen : 1000 ≤ (s.buffer ++ [line]).length
    · rw [generalWrite_body_flush s line f hc hp hlen]
      exact ⟨h1, by simp, by simp, by simp, fun _ => h5 hp, h6, h7, h8, h9⟩
    · rw [generalWrite_body_keep s line f hc hp hlen]
      refine ⟨h1, ?_, by simp [hp], by simp [hc], fun _ => h5 hp, h6, h7, h8, h9⟩
      simp only [List.length_append, List.length_singleton] at hlen ⊢
      omega
  · by_cases hlen : 1000 ≤ (s.preamble_buffer ++ [line]).length
    · rw [generalWrite_pre_full s line f hc hp hlen]
      refine ⟨by simp, ?_, by simp, by simp [hc], by simp, h6, h7, h8, h9⟩
      have hb0 : s.buffer = [] := (h3 hp).1
      simp only [hb0, List.nil_append, List.length_drop, List.length_append,
        List.length_singleton]
      omega
    · rw [generalWrite_pre_keep s line f hc hp hlen]
      refine ⟨?_, h2, fun _ => ⟨(h3 hp).1, by simp [hc]⟩, by simp [hc], by simp [hp], h6,
        h7, h8, h9⟩
      simp only [List.length_append, List.length_singleton]
      simp only [List.length_append, List.length_singleton] at hlen
      omega

lemma step_waitForTOC (s : SplitState) (line : String) (hm : s.mode = .waitForTOC) :
    step s line =
      if pyContains "Contents" (pyStrip line) then { s with mode := .skipTOC } else s := by
  simp only [step, hm]

lemma step_skipTOC (s : SplitState) (line : String) (hm : s.mode = .skipTOC) :
    step s line =
      if normalize (pyStrip line) = "VENUSANDADONIS" then { s with mode := .extractWorks }
      else s := by
  simp only [step, hm]

lemma step_extract (s : SplitState) (line : String) (hm : s.mode = .extractWorks) :
    step s line =
      if boundaryHit s (pyStrip line) then boundaryStep s line else generalWrite s line := by
  simp only [step, hm]

lemma inv_mode_update (s : SplitState) (m : Mode) (h : Inv s) : Inv { s with mode := m } := by
  obtain ⟨h1, h2, h3, h4, h5, h6, h7, h8, h9⟩ := h
  exact ⟨h1, h2, h3, h4, h5, h6, h7, h8, h9⟩

lemma inv_step (s : SplitState) (line : String) (h : Inv s) : Inv (step s line) := by
  rcases hm : s.mode with _ | _ | _
  · rw [step_waitForTOC s line hm]
    split
    · exact inv_mode_update s _ h
    · exact h
  · rw [step_skipTOC s line hm]
    split
    · exact inv_mode_update s _ h
    · exact h
  · rw [step_extract s line hm]
    by_cases hb : boundaryHit s (pyStrip line) = true
    · rw [if_pos hb]
      exact inv_boundaryStep s line h ((boundaryHit_eq_true s (pyStrip line)).mp hb).1
    · rw [if_neg (by simpa using hb)]
      exact inv_generalWrite s line h

lemma inv_foldl (lines : List String) :
    ∀ (s : SplitState), Inv s → Inv (List.foldl step s lines) :=
  match lines with
  | [] => fun _ h => h
  | l :: ls => fun s h => inv_foldl ls (step s l) (inv_step s l h)

lemma inv_processLines (lines : List String) : Inv (processLines lines) :=
  inv_foldl lines initState inv_init

lemma latinLower_iff (c : Char) :
    latinLower c = true ↔ 97 ≤ c.toNat ∧ c.toNat ≤ 122 := by
  simp [latinLower]

lemma toUpper_eq_of_not_lower (c : Char) (h : latinLower c = false) :
    Char.toUpper c = c := by
  unfold Char.toUpper
  rw [if_neg]
  intro hc
  obtain ⟨h1, h2⟩ := hc
  rw [← Bool.not_eq_true, latinLower_iff] at h
  exact h ⟨h1, h2⟩

lemma latinUpper_toUpper_of_not_letter (c : Char) (h : latinLetter c = false) :
    latinUpper (Char.toUpper c) = false := by
  have h' : latinUpper c = false ∧ latinLower c = false := by
    simpa [latinLetter, Bool.or_eq_false_iff] using h
  rw [toUpper_eq_of_not_lower c h'.2]
  exact h'.1

/-- Non-letters contribute nothing to normalization: filtering them out
of the input first does not change the result. -/
lemma normalize_filter_letters :
    ∀ cs : List Char,
      subNonAZ ((cs.filter latinLetter).map Char.toUpper) =
        subNonAZ (cs.map Char.toUpper)
  | [] => rfl
  | c :: cs => by
    rw [List.filter_cons]
    by_cases h : latinLetter c = true
    · rw [if_pos h]
      simp only [List.map_cons, subNonAZ]
      rw [normalize_filter_letters cs]
    · rw [if_neg (by simpa using h)]
      simp only [List.map_cons, subNonAZ]
      rw [if_neg (by simp [latinUpper_toUpper_of_not_letter c (by simpa using h)]),
        normalize_filter_letters cs]

/-! ### Frame lemmas for the step function -/

lemma closeCurrent_none (s : SplitState) (hc : s.current = none) : closeCurrent s = s := by
  simp only [closeCurrent, hc]

lemma closeCurrent_some (s : SplitState) (f : ActiveFile) (hc : s.current = some f) :
    closeCurrent s =
      { s with
        current := none,
        saved := s.saved ++
          [{ f with written := f.written ++
              (if s.in_preamble then flush_preamble s.buffer s.preamble_buffer
               else (s.buffer, s.preamble_buffer)).1 }],
        saved_count := s.saved_count + 1,
        buffer := [],
        in_preamble := false,
        preamble_buffer :=
          (if s.in_preamble then flush_preamble s.buffer s.preamble_buffer
           else (s.buffer, s.preamble_buffer)).2 } := by
  simp only [closeCurrent, hc]

lemma closeCurrent_frame (s : SplitState) :
    (closeCurrent s).mode = s.mode
    ∧ (closeCurrent s).current_work_idx = s.current_work_idx
    ∧ (closeCurrent s).opened = s.opened
    ∧ (∃ t, (closeCurrent s).saved = s.saved ++ t) := by
  rcases hc : s.current with _ | f
  · rw [closeCurrent_none s hc]
    exact ⟨rfl, rfl, rfl, [], by simp⟩
  · rw [closeCurrent_some s f hc]
    exact ⟨rfl, rfl, rfl, [_], rfl⟩

lemma generalWrite_frame (s : SplitState) (line : String) :
    (generalWrite s line).mode = s.mode
    ∧ (generalWrite s line).current_work_idx = s.current_work_idx
    ∧ (generalWrite s line).opened = s.opened
    ∧ (generalWrite s line).saved = s.saved
    ∧ (s.in_preamble = false → (generalWrite s line).in_preamble = false) := by
  rcases hc : s.current with _ | f
  · rw [generalWrite_none s line hc]
    exact ⟨rfl, rfl, rfl, rfl, fun h => h⟩
  rcases hp : s.in_preamble with _ | _
  · by_cases hlen : 1000 ≤ (s.buffer ++ [line]).length
    · rw [generalWrite_body_flush s line f hc hp hlen]
      exact ⟨rfl, rfl, rfl, rfl, fun _ => hp⟩
    · rw [generalWrite_body_keep s line f hc hp hlen]
      exact ⟨rfl, rfl, rfl, rfl, fun _ => hp⟩
  · by_cases hlen : 1000 ≤ (s.preamble_buffer ++ [line]).length
    · rw [generalWrite_pre_full s line f hc hp hlen]
      exact ⟨rfl, rfl, rfl, rfl, fun _ => rfl⟩
    · rw [generalWrite_pre_keep s line f hc hp hlen]
      exact ⟨rfl, rfl, rfl, rfl, fun h => Bool.noConfusion h⟩

lemma boundaryStep_frame (s : SplitState) (line : String) :
    (boundaryStep s line).mode = s.mode
    ∧ (boundaryStep s line).current_work_idx = s.current_work_idx + 1 := by
  obtain ⟨cm, cw, -, -⟩ := closeCurrent_frame s
  by_cases hplay :
      (EXPECTED_WORKS_SEQUENCE.getD s.current_work_idx defaultEntry).is_play = true
  · rw [boundaryStep_play s line hplay]
    exact ⟨cm, by simp [cw]⟩
  · rw [boundaryStep_nonplay s line (by simpa using hplay)]
    exact ⟨cm, by simp [cw]⟩

lemma step_mode_only (s : SplitState) (line : String) (hm : s.mode ≠ Mode.extractWorks) :
    ∃ m, step s line = { s with mode := m } := by
  rcases hmm : s.mode with _ | _ | _
  · rw [step_waitForTOC s line hmm]
    split
    · exact ⟨.skipTOC, rfl⟩
    · exact ⟨s.mode, rfl⟩
  · rw [step_skipTOC s line hmm]
    split
    · exact ⟨.extractWorks, rfl⟩
    · exact ⟨s.mode, rfl⟩
  · exact absurd hmm hm


/-! ### Claim theorems -/

/-- Claim C3 (confirmed): for every preamble window, `flush_preamble`
scans from the window's last line backward toward its first and selects
the index of the first marker found in that backward scan (no later index
matches, and the selected index matches whenever any index does); if no
line of the window matches, the selected index is the window's start `0`,
so nothing is discarded; the lines appended to the body buffer are
exactly the suffix of the window from the selected index on (inclusive),
and the window is then cleared. -/
theorem flush_preamble_backward_scan (buffer pb : List String) :
    flush_preamble buffer pb = (buffer ++ pb.drop (flushStartIdx pb), [])
    ∧ (∀ k, flushStartIdx pb < k → k < pb.length → markerLine (pb.getD k "") = false)
    ∧ (∀ i, i < pb.length → markerLine (pb.getD i "") = true →
        markerLine (pb.getD (flushStartIdx pb) "") = true)
    ∧ ((∀ i, i < pb.length → markerLine (pb.getD i "") = false) → flushStartIdx pb = 0) :=
  ⟨rfl, flushStartIdx_no_marker_above pb, flushStartIdx_finds pb,
    flushStartIdx_of_no_marker pb⟩

/-- Witness for C3 on a concrete window: the marker `"ACT I."` at index 1
is selected, the cast-list line before it is discarded, and the window is
cleared. -/
theorem flush_preamble_backward_scan_witness :
    flush_preamble ["z"] ["Dramatis Personae", "ACT I.", "body"] =
      (["z", "ACT I.", "body"], [])
    ∧ markerLine (["Dramatis Personae", "ACT I.", "body"].getD
        (flushStartIdx ["Dramatis Personae", "ACT I.", "body"]) "") = true :=
  ⟨(flush_preamble_backward_scan ["z"] ["Dramatis Personae", "ACT I.", "body"]).1.trans
      (by decide),
   (flush_preamble_backward_scan ["z"] ["Dramatis Personae", "ACT I.", "body"]).2.2.1 1
      (by decide) (by decide)⟩

/-- Claim C4 (counterexample): `"ACT I!"` is the phrase `ACT I` followed
by trailing punctuation, so under the claim's wording ("optionally
followed by trailing punctuation") it is a marker; but the regex accepts
only periods and whitespace after the phrase (`[\.\s]*$`), so the code
rejects it.  Hence the claimed "exactly when" fails at this input. -/
theorem marker_punctuation_counterexample :
    startPatternSpecClaim "ACT I!" = true ∧ markerLine "ACT I!" = false :=
  ⟨by decide, by decide⟩

/-- Claim C4 (amended, confirmed): a line counts as a start-of-content
marker exactly when, after trimming whitespace and ignoring case, it is
one of `ACT I`, `PROLOGUE`, `SCENE I`, `INDUCTION` — with any nonempty
whitespace run between the two words of the two-word phrases — followed
only by trailing periods and whitespace (not arbitrary punctuation); in
particular `"ACT I."` and `"act i"` both match and `"ACT 1"` does not. -/
theorem marker_rule_characterization :
    (∀ line : String, markerLine line = true ↔ MarkerShape (pyStrip line))
    ∧ markerLine "ACT I." = true
    ∧ markerLine "act i" = true
    ∧ markerLine "ACT 1" = false :=
  ⟨fun line => startPatternMatch_iff (pyStrip line), by decide, by decide, by decide⟩

/-- Witness for the amended C4: instantiating the equivalence at
`"  SCENE  I.. "` produces its structural decomposition. -/
theorem marker_rule_characterization_witness :
    MarkerShape (pyStrip "  SCENE  I.. ") :=
  (marker_rule_characterization.1 "  SCENE  I.. ").mp (by decide)

/-- Claim C7 (confirmed): the title normalizer is a pure total function
mapping a line to the subsequence of its uppercase-folded characters that
are letters `A`–`Z`; removing the non-letters (digits, spaces,
punctuation) of a line first never changes the result, so matching is
insensitive to internal whitespace and punctuation; the 44 catalog keys
are fixed points, so keys and candidate lines are normalized identically;
and letter content and order are preserved (`"AB"` and `"BA"` differ). -/
theorem normalize_characterization :
    (∀ s : String, normalize s = ⟨(s.data.map Char.toUpper).filter latinUpper⟩)
    ∧ (∀ s : String, normalize ⟨s.data.filter latinLetter⟩ = normalize s)
    ∧ (∀ e ∈ EXPECTED_WORKS_SEQUENCE, normalize e.normalized_title = e.normalized_title)
    ∧ normalize "A b:-c 12D!" = "ABCD"
    ∧ normalize "AB" ≠ normalize "BA" := by
  refine ⟨?_, ?_, ?_, by decide, by decide⟩
  · intro s
    show String.mk (subNonAZ (s.data.map Char.toUpper)) = _
    rw [subNonAZ_eq_filter]
  · intro s
    show String.mk (subNonAZ ((s.data.filter latinLetter).map Char.toUpper)) = _
    rw [normalize_filter_letters]
    rfl
  · decide

/-- Witness for C7 at a concrete catalog entry: the key `"THETEMPEST"` is
its own normalization. -/
theorem normalize_characterization_witness :
    normalize "THETEMPEST" = "THETEMPEST" :=
  normalize_characterization.2.2.1 ⟨"THETEMPEST", true, "the_tempest"⟩ (by decide)


lemma getD_mem_of_lt (l : List String) (i : Nat) (h : i < l.length) : l.getD i "" ∈ l := by
  rw [List.getD_eq_getElem?_getD, List.getElem?_eq_getElem h]
  exact List.getElem_mem h

lemma map_getD_sublist (is : List Nat) (l : List CatalogEntry)
    (hp : is.Pairwise (· < ·)) (hb : ∀ i ∈ is, i < l.length) :
    List.Sublist (is.map fun i => l.getD i defaultEntry) l := by
  have h1 : is.map (fun i => l.getD i defaultEntry)
      = (is.pmap (fun i h => (⟨i, h⟩ : Fin l.length)) hb).map (fun j => l[j]) := by
    rw [List.map_pmap, ← List.pmap_eq_map (fun i => i < l.length)
      (fun i => l.getD i defaultEntry) is hb]
    exact List.pmap_congr_left is (fun i hi h1 h2 => List.getD_eq_getElem l defaultEntry h2)
  rw [h1]
  apply List.map_getElem_sublist
  rw [List.pairwise_pmap hb]
  exact hp.imp (fun hij h1 h2 => hij)

/-- Claim C2 (confirmed): the cursor `current_work_idx` is monotonically
non-decreasing, advances by exactly one per successful boundary match and
is unchanged otherwise (it never resets); and for every input the catalog
indices at which output sinks are opened form a strictly increasing
sequence of positions within the catalog — a (possibly incomplete)
subsequence of the catalog in original order, with no reordering and no
repetition. -/
theorem cursor_monotone_sinks_in_order :
    (∀ (s : SplitState) (line : String),
        s.current_work_idx ≤ (step s line).current_work_idx
        ∧ (step s line).current_work_idx ≤ s.current_work_idx + 1
        ∧ (s.mode = Mode.extractWorks → boundaryHit s (pyStrip line) = true →
            (step s line).current_work_idx = s.current_work_idx + 1)
        ∧ (boundaryHit s (pyStrip line) = false →
            (step s line).current_work_idx = s.current_work_idx))
    ∧ (∀ lines : List String,
        (processLines lines).opened.Pairwise (· < ·)
        ∧ (∀ i ∈ (processLines lines).opened, i < EXPECTED_WORKS_SEQUENCE.length)
        ∧ List.Sublist
            ((processLines lines).opened.map
              fun i => EXPECTED_WORKS_SEQUENCE.getD i defaultEntry)
            EXPECTED_WORKS_SEQUENCE) := by
  constructor
  · intro s line
    by_cases hm : s.mode = Mode.extractWorks
    · by_cases hb : boundaryHit s (pyStrip line) = true
      · rw [step_extract s line hm, if_pos hb]
        obtain ⟨-, hw⟩ := boundaryStep_frame s line
        exact ⟨by omega, by omega, fun _ _ => hw,
          fun hfalse => by rw [hfalse] at hb; exact Bool.noConfusion hb⟩
      · rw [step_extract s line hm, if_neg (by simpa using hb)]
        obtain ⟨-, hw, -, -, -⟩ := generalWrite_frame s line
        exact ⟨by omega, by omega, fun _ hbt => absurd hbt hb, fun _ => hw⟩
    · obtain ⟨m, hstep⟩ := step_mode_only s line hm
      rw [hstep]
      exact ⟨Nat.le_refl _, Nat.le_succ _, fun hmm _ => absurd hmm hm, fun _ => rfl⟩
  · intro lines
    obtain ⟨-, -, -, -, -, h6, h7, h8, -⟩ := inv_processLines lines
    have hbnd : ∀ i ∈ (processLines lines).opened, i < EXPECTED_WORKS_SEQUENCE.length :=
      fun i hi => Nat.lt_of_lt_of_le (h8 i hi) h6
    exact ⟨h7, hbnd, map_getD_sublist _ _ h7 hbnd⟩

/-- Witness for C2: a non-boundary line leaves the cursor unchanged, and
a one-line run yields a strictly increasing opened-sink trace. -/
theorem cursor_monotone_sinks_in_order_witness :
    (step extractState0 "not a title").current_work_idx = extractState0.current_work_idx
    ∧ (processLines ["alpha"]).opened.Pairwise (· < ·) :=
  ⟨(cursor_monotone_sinks_in_order.1 extractState0 "not a title").2.2.2 (by decide),
   (cursor_monotone_sinks_in_order.2 ["alpha"]).1⟩

/-- Claim C5 (confirmed): preamble trimming is performed at most once per
retained work: when the window reaches its 1000-line bound on a
non-boundary line, it is resolved early against the partial window — and
if none of its lines matches a marker the entire window is retained
verbatim as body content with no discard — after which `in_preamble` is
false, and it stays false on every further non-boundary line, so all
further lines for that work are ordinary body content with no further
trimming attempted. -/
theorem preamble_trimmed_once :
    (∀ (s : SplitState) (line : String) (f : ActiveFile),
        s.mode = Mode.extractWorks →
        boundaryHit s (pyStrip line) = false →
        s.current = some f →
        s.in_preamble = true →
        s.preamble_buffer.length = 999 →
        (step s line).in_preamble = false
        ∧ (step s line).preamble_buffer = []
        ∧ (step s line).buffer =
            s.buffer ++ (s.preamble_buffer ++ [line]).drop
              (flushStartIdx (s.preamble_buffer ++ [line]))
        ∧ ((∀ l ∈ s.preamble_buffer ++ [line], markerLine l = false) →
            (step s line).buffer = s.buffer ++ s.preamble_buffer ++ [line]))
    ∧ (∀ (s : SplitState) (line : String),
        s.in_preamble = false → boundaryHit s (pyStrip line) = false →
        (step s line).in_preamble = false) := by
  constructor
  · intro s line f hm hb hc hp hlen
    have hfull : 1000 ≤ (s.preamble_buffer ++ [line]).length := by
      simp [List.length_append, hlen]
    rw [step_extract s line hm, if_neg (by simpa using hb),
      generalWrite_pre_full s line f hc hp hfull]
    refine ⟨rfl, rfl, rfl, ?_⟩
    intro hnm
    have h0 : flushStartIdx (s.preamble_buffer ++ [line]) = 0 :=
      flushStartIdx_of_no_marker _ (fun i hi => hnm _ (getD_mem_of_lt _ i hi))
    show s.buffer ++ (s.preamble_buffer ++ [line]).drop
        (flushStartIdx (s.preamble_buffer ++ [line])) = _
    rw [h0, List.drop_zero, List.append_assoc]
  · intro s line hp hb
    by_cases hm : s.mode = Mode.extractWorks
    · rw [step_extract s line hm, if_neg (by simpa using hb)]
      exact (generalWrite_frame s line).2.2.2.2 hp
    · obtain ⟨m, hstep⟩ := step_mode_only s line hm
      rw [hstep]
      exact hp

/-- Witness for C5: a 999-line marker-free window plus one more
non-boundary line resolves with nothing discarded and leaves
`in_preamble` false. -/
theorem preamble_trimmed_once_witness :
    (step preambleFullState "y").in_preamble = false
    ∧ (step preambleFullState "y").buffer =
        preambleFullState.buffer ++ preambleFullState.preamble_buffer ++ ["y"] :=
  ⟨(preamble_trimmed_once.1 preambleFullState "y" ⟨"f.txt", ["T"]⟩ rfl (by decide) rfl rfl
      (by simp only [preambleFullState, List.length_replicate])).1,
   (preamble_trimmed_once.1 preambleFullState "y" ⟨"f.txt", ["T"]⟩ rfl (by decide) rfl rfl
      (by simp only [preambleFullState, List.length_replicate])).2.2.2
      (fun l hl => by
        rcases List.mem_append.mp hl with hl | hl
        · rw [List.eq_of_mem_replicate hl]; decide
        · rw [List.mem_singleton.mp hl]; decide)⟩

/-- Claim C6 (confirmed): a catalog entry whose retain flag is false
never produces an output sink (every sink ever opened belongs to a play);
on its boundary the open sink handle becomes `none` and no sink is
opened; and while no sink is open every non-boundary line is dropped —
the state is completely unchanged. -/
theorem non_retained_never_sinks :
    (∀ lines : List String, ∀ i ∈ (processLines lines).opened,
        (EXPECTED_WORKS_SEQUENCE.getD i defaultEntry).is_play = true)
    ∧ (∀ (s : SplitState) (line : String),
        s.mode = Mode.extractWorks →
        boundaryHit s (pyStrip line) = true →
        (EXPECTED_WORKS_SEQUENCE.getD s.current_work_idx defaultEntry).is_play = false →
        (step s line).current = none ∧ (step s line).opened = s.opened)
    ∧ (∀ (s : SplitState) (line : String),
        s.mode = Mode.extractWorks → s.current = none →
        boundaryHit s (pyStrip line) = false →
        step s line = s) := by
  refine ⟨?_, ?_, ?_⟩
  · intro lines
    obtain ⟨-, -, -, -, -, -, -, -, h9⟩ := inv_processLines lines
    exact h9
  · intro s line hm hb hplay
    rw [step_extract s line hm, if_pos hb, boundaryStep_nonplay s line hplay]
    obtain ⟨-, -, co, -⟩ := closeCurrent_frame s
    exact ⟨rfl, co⟩
  · intro s line hm hc hb
    rw [step_extract s line hm, if_neg (by simpa using hb), generalWrite_none s line hc]

/-- Witness for C6: the first catalog entry (`THE SONNETS`, retain flag
false) matches its boundary but opens no sink. -/
theorem non_retained_never_sinks_witness :
    (step extractState0 "THE SONNETS").current = none
    ∧ (step extractState0 "THE SONNETS").opened = extractState0.opened :=
  non_retained_never_sinks.2.1 extractState0 "THE SONNETS" rfl (by decide) (by decide)

/-- Claim C8 (confirmed): when a retained entry's boundary matches, the
newly opened sink's content is exactly the raw boundary line; finalized
sinks are only ever appended to (never reordered or rewritten), and every
write to the open sink appends to its existing content, so each sink
receives its lines in original input order beginning with its own
boundary line; end-of-input finalization also only appends. -/
theorem sink_starts_with_boundary_line :
    (∀ (s : SplitState) (line : String),
        s.mode = Mode.extractWorks →
        boundaryHit s (pyStrip line) = true →
        (EXPECTED_WORKS_SEQUENCE.getD s.current_work_idx defaultEntry).is_play = true →
        (step s line).current = some
          ⟨(EXPECTED_WORKS_SEQUENCE.getD s.current_work_idx defaultEntry).safe_title
              ++ ".txt", [line]⟩)
    ∧ (∀ (s : SplitState) (line : String), ∃ t, (step s line).saved = s.saved ++ t)
    ∧ (∀ (s : SplitState) (line : String) (f2 : ActiveFile),
        (step s line).current = some f2 →
        (∃ f t, s.current = some f ∧ f2.written = f.written ++ t)
        ∨ f2.written = [line])
    ∧ (∀ s : SplitState, ∃ t, (finalizeEOF s).saved = s.saved ++ t) := by
  refine ⟨?_, ?_, ?_, ?_⟩
  · intro s line hm hb hplay
    rw [step_extract s line hm, if_pos hb, boundaryStep_play s line hplay]
  · intro s line
    by_cases hm : s.mode = Mode.extractWorks
    · by_cases hb : boundaryHit s (pyStrip line) = true
      · rw [step_extract s line hm, if_pos hb]
        obtain ⟨-, -, -, t, hs⟩ := closeCurrent_frame s
        by_cases hplay :
            (EXPECTED_WORKS_SEQUENCE.getD s.current_work_idx defaultEntry).is_play = true
        · rw [boundaryStep_play s line hplay]
          exact ⟨t, hs⟩
        · rw [boundaryStep_nonplay s line (by simpa using hplay)]
          exact ⟨t, hs⟩
      · rw [step_extract s line hm, if_neg (by simpa using hb)]
        obtain ⟨-, -, -, hs, -⟩ := generalWrite_frame s line
        exact ⟨[], by rw [hs, List.append_nil]⟩
    · obtain ⟨m, hstep⟩ := step_mode_only s line hm
      rw [hstep]
      exact ⟨[], by simp⟩
  · intro s line f2 h
    by_cases hm : s.mode = Mode.extractWorks
    · by_cases hb : boundaryHit s (pyStrip line) = true
      · rw [step_extract s line hm, if_pos hb] at h
        by_cases hplay :
            (EXPECTED_WORKS_SEQUENCE.getD s.current_work_idx defaultEntry).is_play = true
        · rw [boundaryStep_play s line hplay] at h
          right
          injection h with h2
          rw [← h2]
        · rw [boundaryStep_nonplay s line (by simpa using hplay)] at h
          exact Option.noConfusion h
      · rw [step_extract s line hm, if_neg (by simpa using hb)] at h
        rcases hc : s.current with _ | f
        · rw [generalWrite_none s line hc] at h
          exact Option.noConfusion (hc ▸ h)
        rcases hp : s.in_preamble with _ | _
        · by_cases hlen : 1000 ≤ (s.buffer ++ [line]).length
          · rw [generalWrite_body_flush s line f hc hp hlen] at h
            injection h with h2
            exact Or.inl ⟨f, s.buffer ++ [line], rfl, by rw [← h2]⟩
          · rw [generalWrite_body_keep s line f hc hp hlen] at h
            have h2 : some f = some f2 := by rw [← hc]; exact h
            exact Or.inl ⟨f2, [], h2, by simp⟩
        · by_cases hlen : 1000 ≤ (s.preamble_buffer ++ [line]).length
          · rw [generalWrite_pre_full s line f hc hp hlen] at h
            have h2 : some f = some f2 := by rw [← hc]; exact h
            exact Or.inl ⟨f2, [], h2, by simp⟩
          · rw [generalWrite_pre_keep s line f hc hp hlen] at h
            have h2 : some f = some f2 := by rw [← hc]; exact h
            exact Or.inl ⟨f2, [], h2, by simp⟩
    · obtain ⟨m, hstep⟩ := step_mode_only s line hm
      rw [hstep] at h
      exact Or.inl ⟨f2, [], h, by simp⟩
  · intro s
    rcases hc : s.current with _ | f
    · simp only [finalizeEOF, hc]
      exact ⟨[], by simp⟩
    · simp only [finalizeEOF, hc]
      exact ⟨[_], rfl⟩

/-- Witness for C8: matching the second catalog entry (a retained play)
opens its sink with the raw boundary line as its only content. -/
theorem sink_starts_with_boundary_line_witness :
    (step extractState1 "ALLS WELL THAT ENDS WELL").current =
      some ⟨"alls_well_that_ends_well.txt", ["ALLS WELL THAT ENDS WELL"]⟩ :=
  sink_starts_with_boundary_line.1 extractState1 "ALLS WELL THAT ENDS WELL" rfl
    (by decide) (by decide)

/-- Claim C9 (confirmed): at every point of the pass, buffering is
bounded by the two 1000-line thresholds: the preamble window never
exceeds (indeed never reaches) 1000 lines at a loop boundary, because on
reaching the bound it is resolved and cleared; the body buffer never
exceeds 1000 lines, and an appended line that brings it to the threshold
flushes it to the open sink and clears it within the same step. -/
theorem buffers_bounded :
    (∀ lines : List String,
        (processLines lines).preamble_buffer.length < 1000
        ∧ (processLines lines).buffer.length ≤ 1000)
    ∧ (∀ (s : SplitState) (line : String) (f : ActiveFile),
        s.mode = Mode.extractWorks → boundaryHit s (pyStrip line) = false →
        s.current = some f → s.in_preamble = true →
        1000 ≤ (s.preamble_buffer ++ [line]).length →
        (step s line).preamble_buffer = [] ∧ (step s line).in_preamble = false)
    ∧ (∀ (s : SplitState) (line : String) (f : ActiveFile),
        s.mode = Mode.extractWorks → boundaryHit s (pyStrip line) = false →
        s.current = some f → s.in_preamble = false →
        1000 ≤ (s.buffer ++ [line]).length →
        (step s line).buffer = []
        ∧ (step s line).current =
            some { f with written := f.written ++ (s.buffer ++ [line]) }) := by
  refine ⟨?_, ?_, ?_⟩
  · intro lines
    obtain ⟨h1, h2, -⟩ := inv_processLines lines
    exact ⟨by omega, h2⟩
  · intro s line f hm hb hc hp hlen
    rw [step_extract s line hm, if_neg (by simpa using hb),
      generalWrite_pre_full s line f hc hp hlen]
    exact ⟨rfl, rfl⟩
  · intro s line f hm hb hc hp hlen
    rw [step_extract s line hm, if_neg (by simpa using hb),
      generalWrite_body_flush s line f hc hp hlen]
    exact ⟨rfl, rfl⟩

/-- Witness for C9: on an empty input the window is empty, and a body
buffer of 999 lines plus one more line flushes to the sink and clears. -/
theorem buffers_bounded_witness :
    (processLines []).preamble_buffer.length < 1000
    ∧ (step bodyFullState "y").buffer = [] :=
  ⟨(buffers_bounded.1 []).1,
   (buffers_bounded.2.2 bodyFullState "y" ⟨"f.txt", ["T"]⟩ rfl (by decide) rfl rfl
      (by simp only [bodyFullState, List.length_append, List.length_replicate,
            List.length_singleton]; omega)).1⟩

/-- Claim C10 (confirmed): a line whose stripped form contains no cased
character fails `str.isupper()`, so it is never boundary-eligible: it
never advances the cursor, never opens a sink, and during extraction it
is handled by the general line-writing path (ordinary content for the
active work, or dropped when no sink is open). -/
theorem uncased_line_never_boundary :
    (∀ line : String,
        (∀ c ∈ (pyStrip line).data, latinLetter c = false) →
        pyIsUpper (pyStrip line) = false)
    ∧ (∀ (s : SplitState) (line : String),
        pyIsUpper (pyStrip line) = false →
        (step s line).current_work_idx = s.current_work_idx
        ∧ (step s line).opened = s.opened
        ∧ (s.mode = Mode.extractWorks → step s line = generalWrite s line)) := by
  constructor
  · intro line h
    have hany : (pyStrip line).data.any latinLetter = false := by
      rw [Bool.eq_false_iff]
      intro hany
      obtain ⟨c, hc, hl⟩ := List.any_eq_true.mp hany
      rw [h c hc] at hl
      exact Bool.noConfusion hl
    unfold pyIsUpper
    rw [hany, Bool.false_and]
  · intro s line hup
    have hb : boundaryHit s (pyStrip line) = false := by
      rw [Bool.eq_false_iff]
      intro hbt
      obtain ⟨-, h2, -⟩ := (boundaryHit_eq_true s (pyStrip line)).mp hbt
      rw [hup] at h2
      exact Bool.noConfusion h2
    by_cases hm : s.mode = Mode.extractWorks
    · rw [step_extract s line hm, if_neg (by simpa using hb)]
      obtain ⟨-, hw, ho, -, -⟩ := generalWrite_frame s line
      exact ⟨hw, ho, fun _ => rfl⟩
    · obtain ⟨m, hstep⟩ := step_mode_only s line hm
      rw [hstep]
      exact ⟨rfl, rfl, fun hmm => absurd hmm hm⟩

/-- Witness for C10: a line of digits and punctuation is not
boundary-eligible and leaves the cursor unchanged. -/
theorem uncased_line_never_boundary_witness :
    pyIsUpper (pyStrip " 123 .! ") = false
    ∧ (step extractState0 " 123 .! ").current_work_idx = extractState0.current_work_idx :=
  ⟨uncased_line_never_boundary.1 " 123 .! " (by decide),
   (uncased_line_never_boundary.2 extractState0 " 123 .! " (by decide)).1⟩

/-- Claim C1 (counterexample): on a missing input file the code prints an
error message and executes a plain `return`: the call completes normally
with no output, indistinguishable from success apart from the printed
message.  It does not surface a hard failure to the caller, refuting the
claim that a missing input file is surfaced as a hard failure. -/
theorem missing_input_no_hard_failure :
    split_complete_works InputSource.missing = Except.ok ⟨[], true⟩
    ∧ split_complete_works InputSource.missing ≠ Except.error IOFailure.ioError :=
  ⟨rfl, fun h => Except.noConfusion h⟩

/-- Claim C1 (amended, confirmed): an input stream that exists but cannot
be opened or read is a hard failure that aborts the whole pass with no
output for any work, and it is the only exception the pass lets escape; a
missing input file also aborts immediately with no output, but is
reported only by a printed error message while the function returns
normally; a readable input always completes without an
externally-surfaced failure. -/
theorem input_failure_semantics :
    split_complete_works InputSource.openFailure = Except.error IOFailure.ioError
    ∧ split_complete_works InputSource.missing = Except.ok ⟨[], true⟩
    ∧ (∀ lines : List String, split_complete_works (InputSource.readable lines) =
        Except.ok ⟨(runSplit lines).saved, false⟩) :=
  ⟨rfl, rfl, fun _ => rfl⟩

/-- Witness for the amended C1: an empty readable input completes
normally with no output files and no error message. -/
theorem input_failure_semantics_witness :
    split_complete_works (InputSource.readable []) = Except.ok ⟨[], false⟩ :=
  (input_failure_semantics.2.2 []).trans rfl

end UpAndDown
